import Mathlib

set_option linter.unusedVariables false

/-!
Verification model of `ooops-load` (`src/main.rs`): a concurrent uploader
that lists the regular files of a directory, sorts them, splits them into
batches, and for each file spawns an async task that acquires a semaphore
permit, reads the file, POSTs it, classifies the outcome, appends a line to
`failures.log` on failure, and bumps a shared progress counter.

Pure data flow (enumeration, chunking, per-task effects, the join loop) is
embedded as executable functions; the interleaving of tasks with the
semaphore and the batch barrier is embedded as a small-step transition
system `Sched.Step`.  Quantities proved about the sequential run model
(counters, line counts, spawn counts) are sums of per-task contributions and
therefore independent of the interleaving order within a batch.
-/

/-- A directory entry as produced by `fs::read_dir`: the entry's path
(`e.path()`, rendered as a string) and whether `p.is_file()` holds for it.
An entry whose read errored (`res.ok()` drops it, main.rs line 51) is
modelled as `none` in the surrounding list. -/
structure DirEntry where
  path : String
  isFile : Bool
  deriving DecidableEq, Repr

/-- PathEnumerator (main.rs lines 48-56): keep the entries that were read
successfully, keep only regular files, take their paths, and sort
(`entries.sort()`).  Paths are compared by the total order on strings, so
sortedness plus permutation determines the output list uniquely; we use
insertion sort as the sorting function. -/
def enumerate (dir : List (Option DirEntry)) : List String :=
  List.insertionSort (fun a b => a ≤ b)
    (((dir.filterMap id).filter (fun e => e.isFile)).map DirEntry.path)

/-- Consecutive chunks of `n` elements, the last one possibly shorter; the
recursion is driven by a fuel argument so that it is structural.  Each step
consumes at least one element when `n ≥ 1`, so fuel `l.length` is always
enough; callers go through `chunksRs`, which rules out `n = 0`. -/
def chunkListAux : Nat → Nat → List α → List (List α)
  | _, _, [] => []
  | 0, _, _ :: _ => []
  | fuel + 1, n, x :: xs => (x :: xs).take n :: chunkListAux fuel n ((x :: xs).drop n)

/-- Consecutive chunks of `n` elements, the last one possibly shorter. -/
def chunkList (n : Nat) (l : List α) : List (List α) :=
  chunkListAux l.length n l

/-- Rust `slice::chunks` (main.rs line 100) with its panic made explicit:
`chunks` asserts `chunk_size != 0` and panics otherwise, which we model as
`none`; otherwise it yields the consecutive chunks. -/
def chunksRs (n : Nat) (l : List α) : Option (List (List α)) :=
  if n = 0 then none else some (chunkList n l)

/-- Which branch of the task body ran for one file, i.e. the spec's Outcome
classification mapped onto the `match` arms of main.rs lines 114-153. -/
inductive Outcome where
  | success
  | readError (msg : String)
  | transportError (msg : String)
  | httpStatusError (status : Nat)
  deriving DecidableEq, Repr

/-- Result of `tokio::fs::read` for one file. -/
inductive ReadResult where
  | ok (bytes : List Nat)
  | err (msg : String)
  deriving DecidableEq, Repr

/-- Result of `client.post(url)...send().await`: a response carrying an HTTP
status code, or a transport / timeout error with a message. -/
inductive SendResult where
  | resp (status : Nat)
  | transportErr (msg : String)
  deriving DecidableEq, Repr

/-- Observable effects of one spawned task body (main.rs lines 112-155): the
branch taken, the lines appended to `failures.log` (empty when the
`writeln!` fails, since its `io::Result` is discarded with `.ok()`), the
number of `pb.inc(1)` calls, the number of HTTP POSTs issued, and the value
the async block returns (`Ok(())` or `Err((path, msg))`). -/
structure TaskOut where
  outcome : Outcome
  logLines : List String
  incs : Nat
  posts : Nat
  ret : Except (String × String) Unit
  deriving Repr

/-- The async move block spawned per file (main.rs lines 112-155).
`writeOk` says whether the `writeln!` into the locked `failures.log`
succeeds at the I/O level; the code ignores that result (`.ok()`).
`resp.status().is_success()` holds exactly for status codes in [200,300). -/
def taskOut (writeOk : Bool) (path : String) (rr : ReadResult) (sr : SendResult) : TaskOut :=
  match rr with
  | .ok _bytes =>
    match sr with
    | .resp status =>
      if 200 ≤ status ∧ status < 300 then
        { outcome := .success, logLines := [], incs := 1, posts := 1, ret := .ok () }
      else
        let msg := "HTTP " ++ toString status ++ " for " ++ path
        { outcome := .httpStatusError status
          logLines := if writeOk then [path ++ " | " ++ msg] else []
          incs := 1, posts := 1, ret := .error (path, msg) }
    | .transportErr e =>
      let msg := "ERR " ++ e ++ " for " ++ path
      { outcome := .transportError e
        logLines := if writeOk then [path ++ " | " ++ msg] else []
        incs := 1, posts := 1, ret := .error (path, msg) }
  | .err e =>
    let msg := "READ_ERR " ++ e ++ " for " ++ path
    { outcome := .readError e
      logLines := if writeOk then [path ++ " | " ++ msg] else []
      incs := 1, posts := 0, ret := .error (path, msg) }

/-- Classification as the spec words it (section 4.4, step 3): any 2xx is
Success, another status is HttpStatusError with that status, a transport or
timeout failure is TransportError, a failed read is ReadError and the send
phase is never reached.  Stated from the spec, to be compared with the
branch structure of `taskOut`. -/
def specClassify (rr : ReadResult) (sr : SendResult) : Outcome :=
  match rr with
  | .err e => .readError e
  | .ok _ =>
    match sr with
    | .transportErr e => .transportError e
    | .resp status =>
      if 200 ≤ status ∧ status < 300 then .success else .httpStatusError status

/-- Behavior of one spawned task as seen at the join point: either the body
ran (with the given read result and, when the read succeeded, send result),
or the task faulted and its JoinHandle yields an error with this message. -/
inductive Behavior where
  | fault (msg : String)
  | act (rr : ReadResult) (sr : SendResult)

/-- Whether the task body ran (did not fault). -/
def nonFaultB : Behavior → Bool
  | .fault _ => false
  | .act _ _ => true

/-- Whether a successful HTTP roundtrip with a 2xx status happened. -/
def isSuccessRS (rr : ReadResult) (sr : SendResult) : Bool :=
  match rr with
  | .ok _ =>
    match sr with
    | .resp status => if 200 ≤ status ∧ status < 300 then true else false
    | .transportErr _ => false
  | .err _ => false

/-- Whether the body ran and classified a non-Success outcome. -/
def failedB : Behavior → Bool
  | .fault _ => false
  | .act rr sr => !(isSuccessRS rr sr)

/-- The stderr line the join loop prints for a fault
(`eprintln!("Task join error: ...")`, main.rs line 160), if any. -/
def faultLine : Behavior → Option String
  | .fault m => some ("Task join error: " ++ m)
  | .act _ _ => none

/-- Accumulated shared state of a run: the progress counter, the
`failures.log` lines, the stderr lines of the join loops, the number of
HTTP POSTs issued, and the number of tasks spawned. -/
structure RunOut where
  counter : Nat
  logLines : List String
  stderr : List String
  posts : Nat
  spawned : Nat
  deriving Repr

/-- Shared state before any task ran. -/
def emptyRun : RunOut :=
  { counter := 0, logLines := [], stderr := [], posts := 0, spawned := 0 }

/-- Effect of one spawned task on the shared state, join handling included
(main.rs lines 157-162): a join error is printed to stderr and the loop
continues with the remaining tasks.  The tasks of a batch are linearized in
spawn order; every quantity proved below is a sum of per-task contributions
and hence independent of the real interleaving. -/
def stepFile (writeOk : Bool) (behav : String → Behavior) (acc : RunOut) (path : String) :
    RunOut :=
  match behav path with
  | .fault m =>
    { acc with
      spawned := acc.spawned + 1
      stderr := acc.stderr ++ ["Task join error: " ++ m] }
  | .act rr sr =>
    let t := taskOut writeOk path rr sr
    { counter := acc.counter + t.incs
      logLines := acc.logLines ++ t.logLines
      stderr := acc.stderr
      posts := acc.posts + t.posts
      spawned := acc.spawned + 1 }

/-- Run every file of one flat list. -/
def runFiles (writeOk : Bool) (behav : String → Behavior) (files : List String) : RunOut :=
  files.foldl (stepFile writeOk behav) emptyRun

/-- Run the batches in order, each batch joined before the next starts
(the chunk loop, main.rs lines 100-164). -/
def runBatches (writeOk : Bool) (behav : String → Behavior) (cs : List (List String)) :
    RunOut :=
  cs.foldl (fun acc c => c.foldl (stepFile writeOk behav) acc) emptyRun

/-- Possible abnormal end of the whole process; `panicked` models a Rust
panic reaching main. -/
inductive RunErr where
  | panicked (msg : String)
  deriving DecidableEq, Repr

/-- Observable result of a normally terminating run: the process exit code,
the stdout lines, and the final shared state. -/
structure MainOut where
  exitCode : Nat
  stdout : List String
  run : RunOut
  deriving Repr

/-- Top level of main (main.rs lines 44-168) after setup: enumerate and
sort, print the Found line, return early when no file was found, otherwise
chunk the list (the `chunks` call panics when `batch_size = 0`) and process
every chunk, then print the final line.  Construction of the HTTP client
and opening of `failures.log` are setup steps whose failure aborts before
any upload; they are not modelled.  Exit code 0 corresponds to returning
`Ok(())`. -/
def mainModel (dirName : String) (batchSize : Nat) (writeOk : Bool)
    (behav : String → Behavior) (dir : List (Option DirEntry)) : Except RunErr MainOut :=
  let entries := enumerate dir
  let total := entries.length
  let found := "Found " ++ toString total ++ " files in " ++ dirName
  if total = 0 then
    .ok { exitCode := 0
          stdout := [found, "No files to upload. Exiting."]
          run := emptyRun }
  else
    match chunksRs batchSize entries with
    | none => .error (.panicked "chunk size must be non-zero")
    | some cs =>
      .ok { exitCode := 0
            stdout := [found, "Finished. Check failures.log for any failed uploads."]
            run := runBatches writeOk behav cs }

/-- Events of one task body in program order. -/
inductive Ev where
  | acquire
  | fileRead
  | post
  | logAppend
  | incCounter
  | release
  deriving DecidableEq, Repr

/-- Order of effects inside one task body (main.rs lines 113-154): the
permit future is awaited first, before any file or network I/O; `_permit`
is a named binding, so the permit is held for the rest of the async block
on every path and is dropped (released) last when the block ends. -/
def taskEvents (rr : ReadResult) (sr : SendResult) : List Ev :=
  Ev.acquire :: Ev.fileRead ::
    (match rr with
     | .ok _ =>
       Ev.post ::
         (match sr with
          | .resp status =>
            if 200 ≤ status ∧ status < 300 then [Ev.incCounter, Ev.release]
            else [Ev.logAppend, Ev.incCounter, Ev.release]
          | .transportErr _ => [Ev.logAppend, Ev.incCounter, Ev.release])
     | .err _ => [Ev.logAppend, Ev.incCounter, Ev.release])

/-- Phase of one spawned task relative to the admission semaphore:
`pending` means not yet past `permit.await`, `active` means holding a
permit, `done` means the async block ended (on any path, a panic unwound at
the join included) and dropped its permit. -/
inductive Phase where
  | pending
  | active
  | done
  deriving DecidableEq, Repr

/-- Global scheduler state: the task phases of every batch, in batch order,
and the number of free permits of the semaphore. -/
structure Sched where
  batches : List (List Phase)
  sem : Nat
  deriving DecidableEq, Repr

/-- Initial state: `Semaphore::new(concurrency)` free permits, every task
pending; `sizes` lists the batch sizes produced by `chunks`. -/
def Sched.start (sizes : List Nat) (c : Nat) : Sched :=
  { batches := sizes.map (fun n => List.replicate n Phase.pending), sem := c }

/-- Every task of this batch has reached its terminal state. -/
def allDone (b : List Phase) : Prop := ∀ ph ∈ b, ph = Phase.done

/-- Every task of batch `k` (if `k` is in range) is done. -/
def allDoneAt (bs : List (List Phase)) (k : Nat) : Prop :=
  ∀ batch, bs.get? k = some batch → allDone batch

/-- Interleaving semantics of a run.  `acquire`: a task of batch `b` passes
`permit.await`; this consumes a free permit, and the task can only exist
because the sequential chunk loop (main.rs lines 100-164) spawned batch `b`
after joining every task of every earlier batch, hence the barrier side
condition.  `finish`: an active task ends its async block on any path and
the drop of `_permit` returns the permit to the semaphore. -/
inductive Sched.Step : Sched → Sched → Prop
  | acquire (bs : List (List Phase)) (sem b i : Nat) (batch : List Phase)
      (hb : bs.get? b = some batch) (hi : batch.get? i = some Phase.pending)
      (hsem : 0 < sem)
      (hbarrier : ∀ k, k < b → allDoneAt bs k) :
      Sched.Step { batches := bs, sem := sem }
        { batches := bs.set b (batch.set i Phase.active), sem := sem - 1 }
  | finish (bs : List (List Phase)) (sem b i : Nat) (batch : List Phase)
      (hb : bs.get? b = some batch) (hi : batch.get? i = some Phase.active) :
      Sched.Step { batches := bs, sem := sem }
        { batches := bs.set b (batch.set i Phase.done), sem := sem + 1 }

/-- Reachability from the initial state. -/
def Sched.Reach (sizes : List Nat) (c : Nat) (s : Sched) : Prop :=
  Relation.ReflTransGen Sched.Step (Sched.start sizes c) s

/-- Number of permit-holding tasks in one batch. -/
def countActive : List Phase → Nat
  | [] => 0
  | Phase.active :: t => countActive t + 1
  | _ :: t => countActive t

/-- Number of permit-holding tasks of the whole run: tasks past admission
and not yet terminal. -/
def activeCount (s : Sched) : Nat :=
  (s.batches.map countActive).sum

/-- Barrier property of a phase table: whenever some task of a batch is
past pending, every task of every earlier batch is done. -/
def Barrier (bs : List (List Phase)) : Prop :=
  ∀ b2 batch2, bs.get? b2 = some batch2 → (∃ ph ∈ batch2, ph ≠ Phase.pending) →
    ∀ b1, b1 < b2 → allDoneAt bs b1

/-- A behavior oracle for concrete runs: every read and send succeeds with
status 200. -/
def behavAllOk : String → Behavior := fun _ => .act (.ok []) (.resp 200)

/-! Helper lemmas: per-task facts. -/

theorem taskOut_incs (w : Bool) (path : String) (rr : ReadResult) (sr : SendResult) :
    (taskOut w path rr sr).incs = 1 := by
  cases rr with
  | ok b =>
    cases sr with
    | resp s => by_cases h : 200 ≤ s ∧ s < 300 <;> simp [taskOut, h]
    | transportErr e => rfl
  | err e => rfl

theorem taskOut_logLines_true (path : String) (rr : ReadResult) (sr : SendResult) :
    (taskOut true path rr sr).logLines.length =
      (if isSuccessRS rr sr = true then 0 else 1) := by
  cases rr with
  | ok b =>
    cases sr with
    | resp s =>
      by_cases h : 200 ≤ s ∧ s < 300 <;> simp [taskOut, isSuccessRS, h]
    | transportErr e => rfl
  | err e => rfl

theorem taskOut_logLines_false (path : String) (rr : ReadResult) (sr : SendResult) :
    (taskOut false path rr sr).logLines = [] := by
  cases rr with
  | ok b =>
    cases sr with
    | resp s => by_cases h : 200 ≤ s ∧ s < 300 <;> simp [taskOut, h]
    | transportErr e => rfl
  | err e => rfl

theorem taskOut_posts_ok (w : Bool) (path : String) (b : List Nat) (sr : SendResult) :
    (taskOut w path (.ok b) sr).posts = 1 := by
  cases sr with
  | resp s => by_cases h : 200 ≤ s ∧ s < 300 <;> simp [taskOut, h]
  | transportErr e => rfl

/-! Helper lemmas: accumulation over a run. -/

theorem foldl_spawned (w : Bool) (behav : String → Behavior) :
    ∀ (files : List String) (acc : RunOut),
      (files.foldl (stepFile w behav) acc).spawned = acc.spawned + files.length := by
  intro files
  induction files with
  | nil => intro acc; simp
  | cons f fs ih =>
    intro acc
    have h1 : (stepFile w behav acc f).spawned = acc.spawned + 1 := by
      cases hb : behav f <;> simp [stepFile, hb]
    rw [List.foldl_cons, ih, h1, List.length_cons]
    omega

theorem foldl_counter (w : Bool) (behav : String → Behavior) :
    ∀ (files : List String) (acc : RunOut),
      (files.foldl (stepFile w behav) acc).counter =
        acc.counter + files.countP (fun f => nonFaultB (behav f)) := by
  intro files
  induction files with
  | nil => intro acc; simp
  | cons f fs ih =>
    intro acc
    rw [List.foldl_cons, ih, List.countP_cons]
    cases hb : behav f with
    | fault m => simp [stepFile, hb, nonFaultB]
    | act rr sr =>
      simp [stepFile, hb, nonFaultB, taskOut_incs]
      omega

theorem foldl_stderr (w : Bool) (behav : String → Behavior) :
    ∀ (files : List String) (acc : RunOut),
      (files.foldl (stepFile w behav) acc).stderr =
        acc.stderr ++ files.filterMap (fun f => faultLine (behav f)) := by
  intro files
  induction files with
  | nil => intro acc; simp
  | cons f fs ih =>
    intro acc
    rw [List.foldl_cons, ih, List.filterMap_cons]
    cases hb : behav f with
    | fault m => simp [stepFile, hb, faultLine]
    | act rr sr => simp [stepFile, hb, faultLine]

theorem foldl_loglen (behav : String → Behavior) :
    ∀ (files : List String) (acc : RunOut),
      (files.foldl (stepFile true behav) acc).logLines.length =
        acc.logLines.length + files.countP (fun f => failedB (behav f)) := by
  intro files
  induction files with
  | nil => intro acc; simp
  | cons f fs ih =>
    intro acc
    rw [List.foldl_cons, ih, List.countP_cons]
    cases hb : behav f with
    | fault m => simp [stepFile, hb, failedB]
    | act rr sr =>
      have h1 := taskOut_logLines_true f rr sr
      cases hs : isSuccessRS rr sr <;>
        simp [stepFile, hb, failedB, hs, h1] <;> omega

theorem foldl_log_false (behav : String → Behavior) :
    ∀ (files : List String) (acc : RunOut),
      (files.foldl (stepFile false behav) acc).logLines = acc.logLines := by
  intro files
  induction files with
  | nil => intro acc; simp
  | cons f fs ih =>
    intro acc
    rw [List.foldl_cons, ih]
    cases hb : behav f with
    | fault m => simp [stepFile, hb]
    | act rr sr => simp [stepFile, hb, taskOut_logLines_false]

theorem runBatches_eq_join (w : Bool) (behav : String → Behavior)
    (cs : List (List String)) :
    runBatches w behav cs = runFiles w behav cs.flatten := by
  unfold runBatches runFiles
  rw [List.foldl_flatten]

/-! Helper lemmas: chunking. -/

theorem chunkListAux_join (n : Nat) (hn : n ≠ 0) :
    ∀ (fuel : Nat) (l : List α), l.length ≤ fuel →
      (chunkListAux fuel n l).flatten = l
  | fuel, [], h => by cases fuel <;> rfl
  | 0, x :: xs, h => absurd h (by simp)
  | fuel + 1, x :: xs, h => by
    show ((x :: xs).take n :: chunkListAux fuel n ((x :: xs).drop n)).flatten = x :: xs
    rw [List.flatten_cons]
    have hlen : ((x :: xs).drop n).length ≤ fuel := by
      simp only [List.length_drop, List.length_cons]
      simp only [List.length_cons] at h
      omega
    rw [chunkListAux_join n hn fuel _ hlen, List.take_append_drop]

theorem chunkList_join (n : Nat) (hn : n ≠ 0) (l : List α) :
    (chunkList n l).flatten = l :=
  chunkListAux_join n hn l.length l (Nat.le_refl _)

theorem chunkListAux_length_le (n : Nat) :
    ∀ (fuel : Nat) (l : List α), ∀ c ∈ chunkListAux fuel n l, c.length ≤ n
  | fuel, [], c, hc => by cases fuel <;> simp [chunkListAux] at hc
  | 0, x :: xs, c, hc => by simp [chunkListAux] at hc
  | fuel + 1, x :: xs, c, hc => by
    replace hc : c ∈ (x :: xs).take n :: chunkListAux fuel n ((x :: xs).drop n) := hc
    rcases List.mem_cons.mp hc with h1 | h1
    · subst h1
      simp only [List.length_take]
      omega
    · exact chunkListAux_length_le n fuel _ c h1

theorem chunkList_length_le (n : Nat) (l : List α) :
    ∀ c ∈ chunkList n l, c.length ≤ n :=
  chunkListAux_length_le n l.length l

/-! Helper lemmas: list access. -/

theorem getSetSelf : ∀ (l : List α) (i : Nat) (a : α),
    i < l.length → (l.set i a).get? i = some a
  | [], i, a, h => absurd h (by simp)
  | x :: xs, 0, a, h => rfl
  | x :: xs, i + 1, a, h => getSetSelf xs i a (by simpa using h)

theorem getSetOther : ∀ (l : List α) (i j : Nat) (a : α),
    i ≠ j → (l.set i a).get? j = l.get? j
  | [], i, j, a, h => by simp
  | x :: xs, 0, 0, a, h => absurd rfl h
  | x :: xs, 0, j + 1, a, h => rfl
  | x :: xs, i + 1, 0, a, h => rfl
  | x :: xs, i + 1, j + 1, a, h =>
    getSetOther xs i j a (fun e => h (by rw [e]))

theorem memSet : ∀ (l : List α) (i : Nat) (a x : α),
    x ∈ l.set i a → x = a ∨ x ∈ l
  | [], i, a, x, h => Or.inr (by simpa using h)
  | y :: ys, 0, a, x, h => by
    rcases List.mem_cons.mp h with h1 | h1
    · exact Or.inl h1
    · exact Or.inr (List.mem_cons_of_mem y h1)
  | y :: ys, i + 1, a, x, h => by
    rcases List.mem_cons.mp h with h1 | h1
    · exact Or.inr (h1 ▸ List.mem_cons_self y ys)
    · rcases memSet ys i a x h1 with h2 | h2
      · exact Or.inl h2
      · exact Or.inr (List.mem_cons_of_mem y h2)

theorem getMem : ∀ (l : List α) (i : Nat) (a : α), l.get? i = some a → a ∈ l
  | [], i, a, h => by simp at h
  | x :: xs, 0, a, h => by
    have : x = a := by simpa using h
    exact this ▸ List.mem_cons_self x xs
  | x :: xs, i + 1, a, h => List.mem_cons_of_mem x (getMem xs i a h)

theorem getLtLength : ∀ (l : List α) (i : Nat) (a : α),
    l.get? i = some a → i < l.length
  | [], i, a, h => by simp at h
  | x :: xs, 0, a, h => Nat.succ_pos _
  | x :: xs, i + 1, a, h => Nat.succ_lt_succ (getLtLength xs i a h)

theorem getMap (f : α → β) : ∀ (l : List α) (i : Nat),
    (l.map f).get? i = (l.get? i).map f
  | [], i => by simp
  | x :: xs, 0 => rfl
  | x :: xs, i + 1 => getMap f xs i

/-! Helper lemmas: the scheduler transition system. -/

theorem countActive_replicate (n : Nat) :
    countActive (List.replicate n Phase.pending) = 0 := by
  induction n with
  | zero => rfl
  | succ m ih => simpa [List.replicate, countActive] using ih

theorem activeCount_start (sizes : List Nat) (c : Nat) :
    activeCount (Sched.start sizes c) = 0 := by
  unfold activeCount Sched.start
  induction sizes with
  | nil => rfl
  | cons s ss ih =>
    simpa [List.map_cons, List.sum_cons, countActive_replicate] using ih

theorem countActive_set_active : ∀ (l : List Phase) (i : Nat),
    l.get? i = some Phase.pending →
    countActive (l.set i Phase.active) = countActive l + 1
  | [], i, h => by simp at h
  | p :: t, 0, h => by
    have hp : p = Phase.pending := by simpa using h
    subst hp
    simp [countActive]
  | p :: t, i + 1, h => by
    have ih := countActive_set_active t i (by simpa using h)
    show countActive (p :: t.set i Phase.active) = countActive (p :: t) + 1
    cases p <;> simp [countActive, ih]

theorem countActive_set_done : ∀ (l : List Phase) (i : Nat),
    l.get? i = some Phase.active →
    countActive (l.set i Phase.done) + 1 = countActive l
  | [], i, h => by simp at h
  | p :: t, 0, h => by
    have hp : p = Phase.active := by simpa using h
    subst hp
    simp [countActive]
  | p :: t, i + 1, h => by
    have ih := countActive_set_done t i (by simpa using h)
    show countActive (p :: t.set i Phase.done) + 1 = countActive (p :: t)
    cases p <;> simp [countActive] <;> omega

theorem sumActive_set : ∀ (bs : List (List Phase)) (b : Nat)
    (batch batch2 : List Phase), bs.get? b = some batch →
    ((bs.set b batch2).map countActive).sum + countActive batch
      = (bs.map countActive).sum + countActive batch2
  | [], b, batch, batch2, h => by simp at h
  | l :: ls, 0, batch, batch2, h => by
    have hl : l = batch := by simpa using h
    subst hl
    simp [List.map_cons, List.sum_cons]
    omega
  | l :: ls, b + 1, batch, batch2, h => by
    have ih := sumActive_set ls b batch batch2 (by simpa using h)
    show ((l :: ls.set b batch2).map countActive).sum + countActive batch
        = ((l :: ls).map countActive).sum + countActive batch2
    simp only [List.map_cons, List.sum_cons]
    omega

/-- Run invariant: the free permits plus the permit-holding tasks always
make up the configured concurrency (`Semaphore::new(concurrency)`). -/
theorem reach_sem_active {sizes : List Nat} {c : Nat} :
    ∀ {s : Sched}, Sched.Reach sizes c s → s.sem + activeCount s = c := by
  intro s h
  induction h with
  | refl =>
    show (Sched.start sizes c).sem + activeCount (Sched.start sizes c) = c
    rw [activeCount_start]
    simp [Sched.start]
  | tail hab hbc ih =>
    cases hbc with
    | acquire bs sem b i batch hb hi hsem hbarrier =>
      have hc := countActive_set_active batch i hi
      have hs := sumActive_set bs b batch (batch.set i Phase.active) hb
      simp only [activeCount] at ih hs ⊢
      omega
    | finish bs sem b i batch hb hi =>
      have hc := countActive_set_done batch i hi
      have hs := sumActive_set bs b batch (batch.set i Phase.done) hb
      simp only [activeCount] at ih hs ⊢
      omega

/-- Run invariant: whenever some task of a batch is past pending, every
task of every earlier batch is done — the barrier between batches. -/
theorem reach_barrier {sizes : List Nat} {c : Nat} :
    ∀ {s : Sched}, Sched.Reach sizes c s → Barrier s.batches := by
  intro s h
  induction h with
  | refl =>
    intro b2 batch2 hget hex b1 hlt
    exfalso
    obtain ⟨ph, hmem, hne⟩ := hex
    have hget2 : (sizes.map (fun n => List.replicate n Phase.pending)).get? b2
        = some batch2 := hget
    rw [getMap] at hget2
    cases hg : sizes.get? b2 with
    | none => rw [hg] at hget2; simp at hget2
    | some n =>
      rw [hg] at hget2
      have hb2 : List.replicate n Phase.pending = batch2 := by simpa using hget2
      subst hb2
      exact hne (List.eq_of_mem_replicate hmem)
  | tail hab hbc ih =>
    cases hbc with
    | acquire bs sem b i batch hb hi hsem hbarrier =>
      intro b2 batch2 hget hex b1 hlt
      by_cases hb1b : b1 = b
      · subst hb1b
        have hne2 : b1 ≠ b2 := Nat.ne_of_lt hlt
        rw [getSetOther bs b1 b2 _ hne2] at hget
        have hdone : allDoneAt bs b1 := ih b2 batch2 hget hex b1 hlt
        have hpd : Phase.pending = Phase.done :=
          hdone batch hb Phase.pending (getMem batch i Phase.pending hi)
        exact absurd hpd (by decide)
      · intro batch3 hget3
        rw [getSetOther bs b b1 _ (fun e => hb1b e.symm)] at hget3
        by_cases hb2b : b2 = b
        · subst hb2b
          exact hbarrier b1 hlt batch3 hget3
        · rw [getSetOther bs b b2 _ (fun e => hb2b e.symm)] at hget
          exact ih b2 batch2 hget hex b1 hlt batch3 hget3
    | finish bs sem b i batch hb hi =>
      intro b2 batch2 hget hex b1 hlt
      have hexOld : ∃ batchO, bs.get? b2 = some batchO ∧
          ∃ ph ∈ batchO, ph ≠ Phase.pending := by
        by_cases hb2b : b2 = b
        · subst hb2b
          exact ⟨batch, hb, Phase.active, getMem batch i Phase.active hi, by decide⟩
        · rw [getSetOther bs b b2 _ (fun e => hb2b e.symm)] at hget
          exact ⟨batch2, hget, hex⟩
      obtain ⟨batchO, hgetO, hexO⟩ := hexOld
      have hdoneOld : allDoneAt bs b1 := ih b2 batchO hgetO hexO b1 hlt
      intro batch3 hget3
      by_cases hb1b : b1 = b
      · subst hb1b
        have hblen : b1 < bs.length := getLtLength bs b1 batch hb
        rw [getSetSelf bs b1 _ hblen] at hget3
        have hb3 : batch.set i Phase.done = batch3 := by
          injection hget3
        subst hb3
        have hAD : allDone batch := hdoneOld batch hb
        intro ph hph
        rcases memSet batch i Phase.done ph hph with h1 | h1
        · exact h1
        · exact hAD ph h1
      · rw [getSetOther bs b b1 _ (fun e => hb1b e.symm)] at hget3
        exact hdoneOld batch3 hget3

/-! Concrete fixtures used by witnesses. -/

/-- A directory with two regular files (listed unsorted), one subdirectory
and one unreadable entry. -/
def dirEx : List (Option DirEntry) :=
  [some { path := "b", isFile := true }, some { path := "a", isFile := true },
   some { path := "c", isFile := false }, none]

/-- A directory with a single regular file. -/
def dirOne : List (Option DirEntry) := [some { path := "a", isFile := true }]

/-- A behavior oracle with one HTTP 500 failure and one read failure. -/
def behavEx : String → Behavior := fun f =>
  if f = "a" then .act (.ok []) (.resp 500) else .act (.err "denied") (.resp 200)

/-! The claims. -/

/-- C1: over a run with N discovered files, the completion counter is
incremented exactly once per file task regardless of its outcome, so at run
end the counter equals N.  First conjunct: every task body performs exactly
one `pb.inc(1)`.  Second conjunct: whenever main terminates normally and no
task faults, the final counter equals the number of enumerated files. -/
theorem C1_counter_eq_total :
    (∀ (w : Bool) (path : String) (rr : ReadResult) (sr : SendResult),
      (taskOut w path rr sr).incs = 1) ∧
    (∀ (dirName : String) (batchSize : Nat) (w : Bool)
        (behav : String → Behavior) (dir : List (Option DirEntry)) (out : MainOut),
      mainModel dirName batchSize w behav dir = Except.ok out →
      (∀ f, nonFaultB (behav f) = true) →
      out.run.counter = (enumerate dir).length) := by
  constructor
  · exact taskOut_incs
  · intro dirName n w behav dir out hout hnf
    simp only [mainModel] at hout
    by_cases h0 : (enumerate dir).length = 0
    · rw [if_pos h0] at hout
      injection hout with h1
      rw [← h1, h0]
      rfl
    · rw [if_neg h0] at hout
      cases hcs : chunksRs n (enumerate dir) with
      | none => rw [hcs] at hout; exact absurd hout (by simp)
      | some cs =>
        rw [hcs] at hout
        injection hout with h1
        have hn : n ≠ 0 := by
          intro e
          subst e
          simp [chunksRs] at hcs
        have hcs2 : cs = chunkList n (enumerate dir) := by
          rw [chunksRs, if_neg hn] at hcs
          exact (Option.some.inj hcs).symm
        rw [← h1]
        show (runBatches w behav cs).counter = (enumerate dir).length
        rw [runBatches_eq_join]
        unfold runFiles
        rw [foldl_counter]
        have hcnt : (cs.flatten).countP (fun f => nonFaultB (behav f))
            = (cs.flatten).length :=
          List.countP_eq_length.mpr (fun a _ => hnf a)
        rw [hcnt, hcs2, chunkList_join n hn]
        simp [emptyRun]

/-- Witness for C1: a concrete run over one file answered with HTTP 500;
the counter still reaches the file count. -/
theorem C1_witness :
    ((mainModel "d" 1 true behavEx dirOne).toOption.getD
        { exitCode := 0, stdout := [], run := emptyRun }).run.counter
      = (enumerate dirOne).length :=
  C1_counter_eq_total.2 "d" 1 true behavEx dirOne _ (by rfl)
    (fun f => by by_cases hf : f = "a" <;> simp [behavEx, hf, nonFaultB])

/-- C2: the number of tasks simultaneously past permit acquisition and not
yet terminal never exceeds the configured concurrency, in any reachable
state of the scheduler; moreover the permit acquisition is the first event
of every task body, before any file or network I/O, and the release is the
last event on every exit path. -/
theorem C2_concurrency_bound :
    (∀ (sizes : List Nat) (c : Nat) (s : Sched),
      Sched.Reach sizes c s → activeCount s ≤ c) ∧
    (∀ (rr : ReadResult) (sr : SendResult),
      (taskEvents rr sr).head? = some Ev.acquire ∧
      (taskEvents rr sr).getLast? = some Ev.release) := by
  constructor
  · intro sizes c s h
    have h2 := reach_sem_active h
    omega
  · intro rr sr
    refine ⟨rfl, ?_⟩
    cases rr with
    | ok b =>
      cases sr with
      | resp s =>
        by_cases h : 200 ≤ s ∧ s < 300 <;> simp [taskEvents, h]
      | transportErr e => rfl
    | err e => rfl

/-- Witness for C2: with concurrency 1 and one batch of two tasks, after one
task acquires the permit the active count is 1 and bounded by 1. -/
theorem C2_witness :
    activeCount { batches := [[Phase.active, Phase.pending]], sem := 0 } ≤ 1 := by
  have hstep : Sched.Step (Sched.start [2] 1)
      { batches := [[Phase.active, Phase.pending]], sem := 0 } :=
    Sched.Step.acquire [[Phase.pending, Phase.pending]] 1 0 0
      [Phase.pending, Phase.pending] rfl rfl (by decide)
      (fun k hk => absurd hk (Nat.not_lt_zero k))
  exact C2_concurrency_bound.1 [2] 1 _ (Relation.ReflTransGen.single hstep)

/-- C3: strict barrier between batches — in every reachable scheduler state,
if any task of a batch is past pending then every task of every earlier
batch is terminal; and the join loop prints one stderr line per join error
while still spawning and joining every file of the run (a fault aborts
nothing). -/
theorem C3_batch_barrier :
    (∀ (sizes : List Nat) (c : Nat) (s : Sched),
      Sched.Reach sizes c s →
      ∀ b2 batch2, s.batches.get? b2 = some batch2 →
        (∃ ph ∈ batch2, ph ≠ Phase.pending) →
        ∀ b1, b1 < b2 → allDoneAt s.batches b1) ∧
    (∀ (behav : String → Behavior) (files : List String),
      (runFiles true behav files).stderr =
        files.filterMap (fun f => faultLine (behav f)) ∧
      (runFiles true behav files).spawned = files.length) := by
  constructor
  · intro sizes c s h
    exact reach_barrier h
  · intro behav files
    constructor
    · unfold runFiles
      rw [foldl_stderr]
      rfl
    · unfold runFiles
      rw [foldl_spawned]
      simp [emptyRun]

/-- Witness for C3: two batches of one task each; after batch 0 finishes and
the task of batch 1 acquires, batch 0 is indeed all done. -/
theorem C3_witness : allDoneAt [[Phase.done], [Phase.active]] 0 := by
  have s1 : Sched.Step (Sched.start [1, 1] 2)
      { batches := [[Phase.active], [Phase.pending]], sem := 1 } :=
    Sched.Step.acquire [[Phase.pending], [Phase.pending]] 2 0 0 [Phase.pending]
      rfl rfl (by decide) (fun k hk => absurd hk (Nat.not_lt_zero k))
  have s2 : Sched.Step { batches := [[Phase.active], [Phase.pending]], sem := 1 }
      { batches := [[Phase.done], [Phase.pending]], sem := 2 } :=
    Sched.Step.finish [[Phase.active], [Phase.pending]] 1 0 0 [Phase.active] rfl rfl
  have s3 : Sched.Step { batches := [[Phase.done], [Phase.pending]], sem := 2 }
      { batches := [[Phase.done], [Phase.active]], sem := 1 } :=
    Sched.Step.acquire [[Phase.done], [Phase.pending]] 2 1 0 [Phase.pending]
      rfl rfl (by decide)
      (fun k hk => by
        have hk0 : k = 0 := by omega
        subst hk0
        intro batch hbatch
        have hb : batch = [Phase.done] := by
          have h4 := hbatch.symm
          simpa using h4
        subst hb
        intro ph hph
        simpa using hph)
  have hreach : Sched.Reach [1, 1] 2 { batches := [[Phase.done], [Phase.active]], sem := 1 } :=
    Relation.ReflTransGen.tail
      (Relation.ReflTransGen.tail (Relation.ReflTransGen.single s1) s2) s3
  exact C3_batch_barrier.1 [1, 1] 2 _ hreach 1 [Phase.active] rfl
    ⟨Phase.active, by decide, by decide⟩ 0 (by decide)

/-- C4: exactly one line is appended to the failure log for each task whose
outcome is not Success and none for a Success outcome, and the counter is
still incremented for failed tasks; over a whole run the number of appended
lines equals the number of non-Success outcomes.  (Log writes are taken to
succeed at the I/O level, the case covered by C10.) -/
theorem C4_failure_log_lines :
    (∀ (path : String) (rr : ReadResult) (sr : SendResult),
      (taskOut true path rr sr).logLines.length =
        (if isSuccessRS rr sr = true then 0 else 1) ∧
      (taskOut true path rr sr).incs = 1) ∧
    (∀ (behav : String → Behavior) (files : List String),
      (runFiles true behav files).logLines.length =
        files.countP (fun f => failedB (behav f))) := by
  constructor
  · intro path rr sr
    exact ⟨taskOut_logLines_true path rr sr, taskOut_incs true path rr sr⟩
  · intro behav files
    unfold runFiles
    rw [foldl_loglen]
    simp [emptyRun]

/-- C5: for every file whose read succeeds exactly one HTTP POST is issued,
none when the read fails, and the outcome classification agrees with the
spec: 2xx is Success, another status is HttpStatusError with that status, a
transport or timeout failure is TransportError, a failed read is
ReadError. -/
theorem C5_classification :
    ∀ (w : Bool) (path : String) (rr : ReadResult) (sr : SendResult),
      (taskOut w path rr sr).outcome = specClassify rr sr ∧
      (taskOut w path rr sr).posts =
        (match rr with | .ok _ => 1 | .err _ => 0) := by
  intro w path rr sr
  constructor
  · cases rr with
    | ok b =>
      cases sr with
      | resp s =>
        by_cases h : 200 ≤ s ∧ s < 300 <;> simp [taskOut, specClassify, h]
      | transportErr e => rfl
    | err e => rfl
  · cases rr with
    | ok b => exact taskOut_posts_ok w path b sr
    | err e => rfl

/-- C6 counterexample to the claim as stated: with batch_size 0 and one
discovered file, the program does not report a configuration error — the
`chunks` call panics, i.e. the process crashes. -/
theorem C6_counterexample :
    mainModel "d" 0 true behavAllOk dirOne =
      Except.error (RunErr.panicked "chunk size must be non-zero") := rfl

/-- C6 amended: batch_size 0 is not validated; when at least one file is
discovered the program panics at the `chunks` call instead of reporting a
configuration error.  For every batch_size ≥ 1 the batches are consecutive
chunks of at most batch_size files, the final chunk possibly smaller, and
the chunk sizes sum to the total file count. -/
theorem C6_amended_batching :
    (∀ (dirName : String) (w : Bool) (behav : String → Behavior)
        (dir : List (Option DirEntry)),
      enumerate dir ≠ [] →
      mainModel dirName 0 w behav dir =
        Except.error (RunErr.panicked "chunk size must be non-zero")) ∧
    (∀ (n : Nat) (l : List String), n ≠ 0 →
      ∃ cs, chunksRs n l = some cs ∧ cs.flatten = l ∧
        (∀ c ∈ cs, c.length ≤ n) ∧ (cs.map List.length).sum = l.length) := by
  constructor
  · intro dirName w behav dir hne
    simp only [mainModel]
    rw [if_neg (fun h0 => hne (List.length_eq_zero.mp h0))]
    rfl
  · intro n l hn
    refine ⟨chunkList n l, ?_, chunkList_join n hn l, chunkList_length_le n l, ?_⟩
    · rw [chunksRs, if_neg hn]
    · rw [← List.length_flatten, chunkList_join n hn l]

/-- Witness for C6: the concrete panic on a one-file directory, and the
chunking of a three-element list with batch_size 2. -/
theorem C6_witness :
    mainModel "d" 0 true behavAllOk dirOne =
        Except.error (RunErr.panicked "chunk size must be non-zero") ∧
    ∃ cs, chunksRs 2 ["a", "b", "c"] = some cs ∧ cs.flatten = ["a", "b", "c"] ∧
      (∀ c ∈ cs, c.length ≤ 2) ∧ (cs.map List.length).sum = ["a", "b", "c"].length := by
  constructor
  · exact C6_amended_batching.1 "d" true behavAllOk dirOne (by decide)
  · exact C6_amended_batching.2 2 ["a", "b", "c"] (by decide)

/-- C7: every failure-log line is the failed file's path, then " | ", then
the classification tag with its detail — the numeric status code for an
HTTP failure, the error message for transport and read failures.  (The
detail as written by the code also repeats the path after "for".) -/
theorem C7_log_line_format :
    ∀ (path e : String) (s : Nat) (bytes : List Nat) (sr : SendResult),
      (taskOut true path (.err e) sr).logLines =
        [path ++ " | " ++ ("READ_ERR " ++ e ++ " for " ++ path)] ∧
      (taskOut true path (.ok bytes) (.transportErr e)).logLines =
        [path ++ " | " ++ ("ERR " ++ e ++ " for " ++ path)] ∧
      (¬(200 ≤ s ∧ s < 300) →
        (taskOut true path (.ok bytes) (.resp s)).logLines =
          [path ++ " | " ++ ("HTTP " ++ toString s ++ " for " ++ path)]) := by
  intro path e s bytes sr
  refine ⟨rfl, rfl, ?_⟩
  intro h
  simp [taskOut, h]

/-- Witness for C7: the log line for a concrete HTTP 500 failure. -/
theorem C7_witness :
    (taskOut true "f2" (.ok []) (.resp 500)).logLines =
      ["f2" ++ " | " ++ ("HTTP " ++ toString 500 ++ " for " ++ "f2")] :=
  (C7_log_line_format "f2" "x" 500 [] (.resp 0)).2.2 (by decide)

/-- C8: when the directory contains no regular files, main prints the Found
line and the notice, returns Ok(()) (exit code 0), and the run state stays
empty — no task is spawned and no HTTP request is made. -/
theorem C8_empty_dir :
    ∀ (dirName : String) (batchSize : Nat) (w : Bool)
      (behav : String → Behavior) (dir : List (Option DirEntry)),
      (∀ e : DirEntry, some e ∈ dir → e.isFile = false) →
      mainModel dirName batchSize w behav dir =
        Except.ok { exitCode := 0
                    stdout := ["Found 0 files in " ++ dirName,
                               "No files to upload. Exiting."]
                    run := emptyRun } ∧
      emptyRun.spawned = 0 ∧ emptyRun.posts = 0 := by
  intro dirName n w behav dir hnf
  have henum : enumerate dir = [] := by
    unfold enumerate
    have hfil : (dir.filterMap id).filter (fun e => e.isFile) = [] := by
      apply List.filter_eq_nil_iff.mpr
      intro e he
      have hmem : some e ∈ dir := by
        rcases List.mem_filterMap.mp he with ⟨o, ho, hid⟩
        cases o with
        | none => simp at hid
        | some e2 =>
          have he2 : e2 = e := by simpa using hid
          subst he2
          exact ho
      simp [hnf e hmem]
    rw [hfil]
    rfl
  refine ⟨?_, rfl, rfl⟩
  simp only [mainModel]
  rw [henum]
  rfl

/-- Witness for C8: a directory holding only a subdirectory and an
unreadable entry. -/
theorem C8_witness :
    mainModel "d" 3 true behavAllOk
        [some { path := "sub", isFile := false }, none] =
      Except.ok { exitCode := 0
                  stdout := ["Found 0 files in " ++ "d",
                             "No files to upload. Exiting."]
                  run := emptyRun } ∧
    emptyRun.spawned = 0 ∧ emptyRun.posts = 0 :=
  C8_empty_dir "d" 3 true behavAllOk [some { path := "sub", isFile := false }, none]
    (by
      intro e he
      rcases List.mem_cons.mp he with h | h
      · have he2 : e = { path := "sub", isFile := false } := by
          have h2 := h
          injection h2 with h3
        · rw [he2]
      · rcases List.mem_cons.mp h with h1 | h1
        · exact absurd h1 (by simp)
        · simp at h1)

/-- C9: enumeration is deterministic and yields exactly the regular files of
the directory, sorted by path, with non-regular and unreadable entries
excluded. -/
theorem C9_enumeration_deterministic :
    ∀ (dir : List (Option DirEntry)),
      enumerate dir = enumerate dir ∧
      List.Sorted (fun a b => a ≤ b) (enumerate dir) ∧
      (enumerate dir).Perm
        (((dir.filterMap id).filter (fun e => e.isFile)).map DirEntry.path) ∧
      (∀ p, p ∈ enumerate dir ↔
        ∃ e : DirEntry, some e ∈ dir ∧ e.isFile = true ∧ e.path = p) := by
  intro dir
  refine ⟨rfl, ?_, ?_, ?_⟩
  · exact List.sorted_insertionSort _ _
  · exact List.perm_insertionSort _ _
  · intro p
    constructor
    · intro hp
      unfold enumerate at hp
      rw [(List.perm_insertionSort (fun a b => a ≤ b) _).mem_iff] at hp
      rcases List.mem_map.mp hp with ⟨e, he, hpe⟩
      rcases List.mem_filter.mp he with ⟨he2, hef⟩
      rcases List.mem_filterMap.mp he2 with ⟨o, ho, hid⟩
      cases o with
      | none => simp at hid
      | some e2 =>
        have he3 : e2 = e := by simpa using hid
        subst he3
        exact ⟨e2, ho, hef, hpe⟩
    · rintro ⟨e, he, hef, hep⟩
      unfold enumerate
      rw [(List.perm_insertionSort (fun a b => a ≤ b) _).mem_iff]
      apply List.mem_map.mpr
      refine ⟨e, ?_, hep⟩
      apply List.mem_filter.mpr
      refine ⟨?_, hef⟩
      exact List.mem_filterMap.mpr ⟨some e, he, rfl⟩

/-- C10: a failed write of a failure-log line is silently discarded — the
task appends nothing and reports nothing anywhere (no stdout/stderr
change), yet still increments the counter, returns the same classified
failure value, and over a whole run the counter and stderr are exactly as
with successful log writes while the log stays empty. -/
theorem C10_log_write_error_swallowed :
    ∀ (path : String) (rr : ReadResult) (sr : SendResult)
      (behav : String → Behavior) (files : List String),
      (taskOut false path rr sr).logLines = [] ∧
      (taskOut false path rr sr).incs = 1 ∧
      (taskOut false path rr sr).outcome = (taskOut true path rr sr).outcome ∧
      (taskOut false path rr sr).ret = (taskOut true path rr sr).ret ∧
      (runFiles false behav files).logLines = [] ∧
      (runFiles false behav files).counter = (runFiles true behav files).counter ∧
      (runFiles false behav files).stderr = (runFiles true behav files).stderr := by
  intro path rr sr behav files
  refine ⟨taskOut_logLines_false path rr sr, taskOut_incs false path rr sr,
    ?_, ?_, ?_, ?_, ?_⟩
  · cases rr with
    | ok b =>
      cases sr with
      | resp s => by_cases h : 200 ≤ s ∧ s < 300 <;> simp [taskOut, h]
      | transportErr e => rfl
    | err e => rfl
  · cases rr with
    | ok b =>
      cases sr with
      | resp s => by_cases h : 200 ≤ s ∧ s < 300 <;> simp [taskOut, h]
      | transportErr e => rfl
    | err e => rfl
  · unfold runFiles
    rw [foldl_log_false]
    rfl
  · unfold runFiles
    rw [foldl_counter, foldl_counter]
  · unfold runFiles
    rw [foldl_stderr, foldl_stderr]
